import Mathlib

/-!
# Verification of the gaia JIT manager (Sources/JIT/JIT.cpp)

A shallow embedding of the `gaia::JIT` class: the handle registry
(`moduleHandles`), module addition/removal, symbol mangling, and the
two-tier symbol-resolution procedure (`findMangledSymbol`), together
with theorems about the resolution order, shadowing, removal, and
frame conditions.

Modelling conventions:
* Module handles (`CompileLayer::ModuleSetHandleT`) are modelled as
  natural numbers issued by a fresh counter, reflecting the spec's
  statement that handles are unique for the lifetime of the manager.
* The compile layer's per-handle artifacts are modelled as a partial
  map from handles to symbol tables; a symbol table maps a mangled
  name to an (address, exported-flag) pair, so that
  `compileLayer.findSymbolIn(handle, name, true)` (which also searches
  non-exported definitions) is a plain lookup.
* The host process's symbol table
  (`RTDyldMemoryManager::getSymbolAddressInProcess`) and the LLVM
  `Mangler` are external collaborators; following the spec they are
  modelled as capabilities fixed at construction: an address-by-name
  query and a pure name transformation.
-/

namespace Gaia

/-- A resolved JIT symbol: an address and its flags.  The only flag the
manager ever inspects or produces is `JITSymbolFlags::Exported`, so the
flags are modelled as a single `exported` bit. -/
structure Symbol where
  address : Nat
  exported : Bool
deriving DecidableEq, Repr

/-- A compiled module's symbol table: mangled name ↦ (address, exported
flag).  This is the view of a module that
`compileLayer.findSymbolIn(handle, name, true)` exposes: every
definition, exported or not, is searchable. -/
abbrev ModuleDefs := List (String × Nat × Bool)

/-- The state of a `gaia::JIT` manager.

* `nextHandle` — the counter issuing fresh module handles.
* `moduleHandles` — the handle registry (`std::vector<ModuleHandle>`),
  in insertion order.
* `artifacts` — the compile layer's handle ↦ symbol-table map.
* `process` — the host process's symbol table, made visible at
  construction by `LoadLibraryPermanently(nullptr)`; modelled from the
  spec as an injected address-by-name capability.
* `mangler` — the target-description mangling scheme; modelled from the
  spec as a pure name transformation fixed at construction. -/
structure JITState where
  nextHandle : Nat
  moduleHandles : List Nat
  artifacts : Nat → Option ModuleDefs
  process : String → Option Nat
  mangler : String → String

/-- `JIT::JIT()`: empty registry, empty compile layer, the process
symbol table and the target's mangling scheme fixed from the
environment. -/
def initialState (process : String → Option Nat)
    (mangler : String → String) : JITState :=
  { nextHandle := 0
    moduleHandles := []
    artifacts := fun _ => none
    process := process
    mangler := mangler }

/-- `compileLayer.findSymbolIn(handle, name, true)`: does the artifact
registered under `handle` define `name`?  The `true` argument means
non-exported definitions are also searched, so the lookup ignores the
exported flag and returns it with the address. -/
def findSymbolIn (st : JITState) (handle : Nat) (name : String) :
    Option Symbol :=
  match st.artifacts handle with
  | some defs => (defs.lookup name).map fun p => ⟨p.1, p.2⟩
  | none => none

/-- The `for (auto handle : make_range(rbegin, rend))` loop of
`JIT::findMangledSymbol`, over an explicit list of handles: return the
first handle's symbol that defines `name`. -/
def searchHandles (st : JITState) : List Nat → String → Option Symbol
  | [], _ => none
  | handle :: rest, name =>
    match findSymbolIn st handle name with
    | some symbol => some symbol
    | none => searchHandles st rest name

/-- `JIT::findMangledSymbol`: search the live modules from last added
to first added; if no loaded module defines the name, try the host
process, marking a hit `Exported`; otherwise report absence
(`nullptr`). -/
def findMangledSymbol (st : JITState) (name : String) : Option Symbol :=
  match searchHandles st st.moduleHandles.reverse name with
  | some symbol => some symbol
  | none =>
    match st.process name with
    | some symbolAddress => some ⟨symbolAddress, true⟩
    | none => none

/-- `JIT::mangle`: stream the name through
`Mangler::getNameWithPrefix` with the fixed data layout; in the model,
apply the target description's mangling scheme. -/
def mangle (st : JITState) (name : String) : String :=
  st.mangler name

/-- `JIT::findSymbol`: mangle, then resolve. -/
def findSymbol (st : JITState) (name : String) : Option Symbol :=
  findMangledSymbol st (mangle st name)

/-- `JIT::addModule`: compile the module (its symbol table `defs` is
what the compile layer will report for the new artifact), register it
under a fresh handle, push the handle onto the registry, and return
it.  The resolver lambda closing over `findMangledSymbol` only affects
linking of undefined references, not the registry or resolution state,
so it does not appear in the state transition. -/
def addModule (st : JITState) (defs : ModuleDefs) : Nat × JITState :=
  let moduleHandle := st.nextHandle
  (moduleHandle,
    { st with
      nextHandle := moduleHandle + 1
      moduleHandles := st.moduleHandles ++ [moduleHandle]
      artifacts := fun h =>
        if h = moduleHandle then some defs else st.artifacts h })

/-- `JIT::removeModule`: `moduleHandles.erase(std::find(...))` followed
by `compileLayer.removeModuleSet(handle)`.  The code never compares the
`std::find` result against `end()`: when the handle is present the
first occurrence is erased and the artifact released; when it is
absent, `vector::erase(end())` and `removeModuleSet` on an unregistered
handle are undefined behavior in C++, which the model marks `none`
(no defined result state). -/
def removeModule (st : JITState) (moduleHandle : Nat) : Option JITState :=
  if moduleHandle ∈ st.moduleHandles then
    some { st with
           moduleHandles := st.moduleHandles.erase moduleHandle
           artifacts := fun h =>
             if h = moduleHandle then none else st.artifacts h }
  else
    none

/-- Submitting a sequence of modules, in order, with no intervening
removals. -/
def addModules (st : JITState) : List ModuleDefs → JITState
  | [] => st
  | defs :: rest => addModules (addModule st defs).2 rest

/-- State-passing form of `JIT::mangle`: the member function reads only
the data layout, so the manager state comes back with the result. -/
def mangleOp (st : JITState) (name : String) : String × JITState :=
  (mangle st name, st)

/-- State-passing form of `JIT::findMangledSymbol`: the member function
only iterates the registry and queries the layers, so the manager state
comes back with the result. -/
def findMangledSymbolOp (st : JITState) (name : String) :
    Option Symbol × JITState :=
  (findMangledSymbol st name, st)

/-- State-passing form of `JIT::findSymbol`. -/
def findSymbolOp (st : JITState) (name : String) :
    Option Symbol × JITState :=
  let mangled := mangleOp st name
  findMangledSymbolOp mangled.2 mangled.1

/-- The resolution algorithm as the spec words it (§4.1): find the
first handle in reverse insertion order whose artifact defines `m` and
return its symbol; otherwise query the host process and mark a hit as
externally-owned/exported; otherwise report absence. -/
def resolveSpec (st : JITState) (m : String) : Option Symbol :=
  match st.moduleHandles.reverse.find?
      (fun h => (findSymbolIn st h m).isSome) with
  | some h => findSymbolIn st h m
  | none => (st.process m).map fun a => ⟨a, true⟩

/-- The manager states reachable from a freshly constructed manager by
(defined) `addModule` / `removeModule` steps. -/
inductive Reachable (process : String → Option Nat)
    (mangler : String → String) : JITState → Prop where
  | init : Reachable process mangler (initialState process mangler)
  | add (st : JITState) (defs : ModuleDefs) :
      Reachable process mangler st →
      Reachable process mangler (addModule st defs).2
  | remove (st : JITState) (h : Nat) (st' : JITState) :
      Reachable process mangler st →
      removeModule st h = some st' →
      Reachable process mangler st'

/-! ## Basic lemmas about the search loop -/

theorem searchHandles_eq_find? (st : JITState) (m : String) :
    ∀ l : List Nat,
      searchHandles st l m =
        (l.find? fun h => (findSymbolIn st h m).isSome).bind
          fun h => findSymbolIn st h m := by
  intro l
  induction l with
  | nil => rfl
  | cons h t ih =>
    cases hs : findSymbolIn st h m with
    | some s =>
      rw [List.find?_cons_of_pos _ (by simp [hs])]
      simp [searchHandles, hs]
    | none =>
      rw [List.find?_cons_of_neg _ (by simp [hs])]
      simp [searchHandles, hs, ih]

theorem searchHandles_append (st : JITState) (m : String) (l₁ l₂ : List Nat) :
    searchHandles st (l₁ ++ l₂) m =
      match searchHandles st l₁ m with
      | some s => some s
      | none => searchHandles st l₂ m := by
  induction l₁ with
  | nil => simp [searchHandles]
  | cons h t ih =>
    cases hs : findSymbolIn st h m with
    | some s => simp [searchHandles, hs]
    | none => simp [searchHandles, hs, ih]

theorem searchHandles_eq_none (st : JITState) (m : String) (l : List Nat)
    (hall : ∀ h ∈ l, findSymbolIn st h m = none) :
    searchHandles st l m = none := by
  induction l with
  | nil => rfl
  | cons h t ih =>
    have hh := hall h (by simp)
    simp only [searchHandles, hh]
    exact ih fun h hm => hall h (by simp [hm])

/-- If position `i` of the registry list `l` holds a handle whose
artifact defines `m` and no later position's handle does, then the
reverse-order search returns position `i`'s symbol. -/
theorem searchHandles_reverse_last_definer (st : JITState) (m : String)
    (l : List Nat) (i : Nat) (h : Nat)
    (hget : l.get? i = some h)
    (hdef : (findSymbolIn st h m).isSome = true)
    (hlater : ∀ j h', l.get? j = some h' → i < j →
      findSymbolIn st h' m = none) :
    searchHandles st l.reverse m = findSymbolIn st h m := by
  have hrev : l.reverse = (l.drop (i + 1)).reverse ++ (l.take (i + 1)).reverse := by
    conv_lhs => rw [(List.take_append_drop (i + 1) l).symm]
    rw [List.reverse_append]
  obtain ⟨hi, hgeti⟩ := List.get?_eq_some.mp hget
  rw [hrev, searchHandles_append]
  have hdropnone : searchHandles st (l.drop (i + 1)).reverse m = none := by
    apply searchHandles_eq_none
    intro h' hm
    rw [List.mem_reverse] at hm
    obtain ⟨k, hk⟩ := List.mem_iff_get?.mp hm
    rw [List.get?_drop] at hk
    exact hlater (i + 1 + k) h' hk (by omega)
  have htake : (l.take (i + 1)).reverse = h :: (l.take i).reverse := by
    rw [List.take_succ]
    rw [show l[i]? = some h from by rw [← List.get?_eq_getElem?]; exact hget]
    simp
  rw [hdropnone, htake]
  obtain ⟨s, hs⟩ := Option.isSome_iff_exists.mp hdef
  simp [searchHandles, hs]

/-! ## The shape of a state built by a sequence of submissions -/

theorem addModules_moduleHandles :
    ∀ (mods : List ModuleDefs) (st : JITState),
      (addModules st mods).moduleHandles =
        st.moduleHandles ++ List.range' st.nextHandle mods.length := by
  intro mods
  induction mods with
  | nil => intro st; simp [addModules]
  | cons defs rest ih =>
    intro st
    rw [addModules, ih]
    simp [addModule, List.range'_succ]

theorem addModules_artifacts_lt :
    ∀ (mods : List ModuleDefs) (st : JITState) (h : Nat),
      h < st.nextHandle →
      (addModules st mods).artifacts h = st.artifacts h := by
  intro mods
  induction mods with
  | nil => intro st h _; rfl
  | cons defs rest ih =>
    intro st h hlt
    rw [addModules, ih _ _ (by simp [addModule]; omega)]
    simp [addModule]
    omega

theorem addModules_artifacts_get? :
    ∀ (mods : List ModuleDefs) (st : JITState) (j : Nat),
      j < mods.length →
      (addModules st mods).artifacts (st.nextHandle + j) = mods.get? j := by
  intro mods
  induction mods with
  | nil => intro st j hj; simp at hj
  | cons defs rest ih =>
    intro st j hj
    cases j with
    | zero =>
      rw [addModules,
        addModules_artifacts_lt rest _ _ (by simp [addModule])]
      simp [addModule]
    | succ j' =>
      rw [addModules]
      have harg : st.nextHandle + (j' + 1) =
          (addModule st defs).2.nextHandle + j' := by
        simp [addModule]; omega
      rw [harg, ih _ j' (by simpa using hj)]
      rfl

/-! ## Example environment and states used by the witnesses -/

/-- A host process exporting exactly one symbol, `sin` at address 1000. -/
def procSin : String → Option Nat :=
  fun n => if n = "sin" then some 1000 else none

/-- An identity mangling scheme (empty global name decoration). -/
def idMangler : String → String := fun s => s

/-- A manager holding one module that defines only `bar`. -/
def exampleState : JITState :=
  (addModule (initialState procSin idMangler) [("bar", 7, false)]).2

/-! ## The claims -/

/-- C1: for every registry state and every mangled name `m`,
`findMangledSymbol` searches the live module handles in reverse
insertion order and returns the first handle's symbol that defines `m`;
only if no live module defines `m` does it query the host process's
symbol table; if neither tier defines `m` it reports absence.  Stated
as: the source procedure coincides with `resolveSpec`, the algorithm as
the spec words it. -/
theorem C1_resolution_follows_spec (st : JITState) (m : String) :
    findMangledSymbol st m = resolveSpec st m := by
  unfold findMangledSymbol resolveSpec
  rw [searchHandles_eq_find?]
  cases hf : st.moduleHandles.reverse.find?
      (fun h => (findSymbolIn st h m).isSome) with
  | none =>
    simp only [Option.bind]
    cases st.process m <;> simp
  | some h =>
    have hsome := List.find?_some hf
    obtain ⟨s, hs⟩ := Option.isSome_iff_exists.mp hsome
    simp [hs]

/-- C3: a name whose mangled form no live module defines and the host
process does not export resolves to an explicit `none`; by the total
type `Option Symbol` of `findSymbol`, an unresolvable lookup is a
normal return value, not a failure. -/
theorem C3_unresolvable_lookup_is_none (st : JITState) (name : String)
    (hmods : ∀ h ∈ st.moduleHandles,
      findSymbolIn st h (mangle st name) = none)
    (hproc : st.process (mangle st name) = none) :
    findSymbol st name = none := by
  unfold findSymbol findMangledSymbol
  rw [searchHandles_eq_none st _ _
    (fun h hm => hmods h (List.mem_reverse.mp hm))]
  simp [hproc]

/-- Witness for C3: on `exampleState` (one module defining only `bar`,
process exporting only `sin`), looking up `foo` returns `none`. -/
theorem C3_witness : findSymbol exampleState "foo" = none :=
  C3_unresolvable_lookup_is_none exampleState "foo" (by decide) (by decide)

/-- C5: a successful `addModule` appends exactly one new handle at the
end of the handle registry, leaving all previously registered handles
in place and in order, and returns that same handle. -/
theorem C5_addModule_appends_returned_handle
    (st : JITState) (defs : ModuleDefs) :
    (addModule st defs).2.moduleHandles =
      st.moduleHandles ++ [(addModule st defs).1] := rfl

/-- C8: `mangle` is a total, deterministic, pure function of the input
name given the fixed target description: it leaves the manager state
unchanged, and two managers with the same mangling scheme produce the
identical mangled name (totality is the function type itself). -/
theorem C8_mangle_pure_deterministic (st st' : JITState) (name : String)
    (hsame : st.mangler = st'.mangler) :
    (mangleOp st name).2 = st ∧
      (mangleOp st name).1 = (mangleOp st' name).1 := by
  refine ⟨rfl, ?_⟩
  simp [mangleOp, mangle, hsame]

/-- Witness for C8: mangling `f` in a fresh manager and in the same
manager after one module submission leaves each state unchanged and
yields the same mangled name. -/
theorem C8_witness :
    (mangleOp (initialState procSin idMangler) "f").2 =
        initialState procSin idMangler ∧
      (mangleOp (initialState procSin idMangler) "f").1 =
        (mangleOp exampleState "f").1 :=
  C8_mangle_pure_deterministic (initialState procSin idMangler)
    exampleState "f" rfl

/-- C9: whenever resolution succeeds via the host-process fallback tier
(no live module defines the mangled name, the process symbol table
does), the returned symbol carries the externally-owned/exported
flag. -/
theorem C9_process_fallback_is_exported (st : JITState) (m : String)
    (a : Nat)
    (hmods : ∀ h ∈ st.moduleHandles, findSymbolIn st h m = none)
    (hproc : st.process m = some a) :
    findMangledSymbol st m = some ⟨a, true⟩ := by
  unfold findMangledSymbol
  rw [searchHandles_eq_none st m _
    (fun h hm => hmods h (List.mem_reverse.mp hm))]
  simp [hproc]

/-- Witness for C9: on `exampleState`, `sin` is only defined by the
host process; it resolves to address 1000 with the exported flag. -/
theorem C9_witness :
    findMangledSymbol exampleState "sin" = some ⟨1000, true⟩ :=
  C9_process_fallback_is_exported exampleState "sin" 1000
    (by decide) (by decide)

/-- C10: `findSymbol` and the underlying `findMangledSymbol` are
read-only on the manager: in state-passing form the handle registry
(and its order) after the lookup is the registry before it, whether or
not the lookup succeeds. -/
theorem C10_lookup_preserves_registry (st : JITState) (name : String) :
    (findSymbolOp st name).2.moduleHandles = st.moduleHandles ∧
      (findMangledSymbolOp st name).2.moduleHandles = st.moduleHandles :=
  ⟨rfl, rfl⟩

/-- C4: evaluating `removeModule` at a handle absent from the registry
(here: handle 1, registry `[0]`).  The source performs
`moduleHandles.erase(std::find(...))` without ever comparing the
`std::find` result against `end()`, so this call reaches
`vector::erase(end())` — undefined behavior, `none` in the model.  No
`UnknownHandle` check or signal exists anywhere in the code. -/
theorem C4_removeModule_absent_handle_eval :
    removeModule exampleState 1 = none := rfl

/-- C2: for every sequence of module submissions with no intervening
removals, resolving a mangled name `m` defined by the submission at
position `i` and by no later submission returns position `i`'s
definition — the most recently submitted definer wins, even when an
earlier submission also defines `m`. -/
theorem C2_last_submitted_definer_wins (process : String → Option Nat)
    (mangler : String → String) (mods : List ModuleDefs) (i : Nat)
    (hi : i < mods.length) (m : String) (a : Nat) (e : Bool)
    (hdef : ((mods.get ⟨i, hi⟩).lookup m) = some (a, e))
    (hlater : ∀ j (hj : j < mods.length), i < j →
      (mods.get ⟨j, hj⟩).lookup m = none) :
    findMangledSymbol (addModules (initialState process mangler) mods) m =
      some ⟨a, e⟩ := by
  set st := addModules (initialState process mangler) mods with hst
  have hmh : st.moduleHandles = List.range' 0 mods.length := by
    rw [hst, addModules_moduleHandles]
    simp [initialState]
  have hart : ∀ j, j < mods.length → st.artifacts j = mods.get? j := by
    intro j hj
    have := addModules_artifacts_get? mods (initialState process mangler) j hj
    simpa [initialState] using this
  have hdefE := hdef
  rw [List.get_eq_getElem] at hdefE
  have hfi : findSymbolIn st i m = some ⟨a, e⟩ := by
    unfold findSymbolIn
    rw [hart i hi, List.get?_eq_get hi]
    simp [hdefE]
  have hget : (List.range' 0 mods.length).get? i = some i := by
    rw [List.get?_range' 0 1 hi]
    simp
  have hlater' : ∀ j h', (List.range' 0 mods.length).get? j = some h' →
      i < j → findSymbolIn st h' m = none := by
    intro j h' hg hij
    obtain ⟨hj, hval⟩ := List.get?_eq_some.mp hg
    rw [List.length_range'] at hj
    have hh' : h' = j := by
      rw [← hval]
      simp [List.get_eq_getElem, List.getElem_range']
    rw [hh']
    have hl := hlater j hj hij
    rw [List.get_eq_getElem] at hl
    unfold findSymbolIn
    rw [hart j hj, List.get?_eq_get hj]
    simp [hl]
  have hsearch := searchHandles_reverse_last_definer st m
    (List.range' 0 mods.length) i i hget (by rw [hfi]; rfl) hlater'
  unfold findMangledSymbol
  rw [hmh, hsearch, hfi]

/-- Witness for C2: submit a module defining `add` at address 5, then a
module redefining `add` at address 0; resolution returns the second
module's definition. -/
theorem C2_witness :
    findMangledSymbol
      (addModules (initialState procSin idMangler)
        [[("add", 5, true)], [("add", 0, true)]]) "add" =
      some ⟨0, true⟩ :=
  C2_last_submitted_definer_wins procSin idMangler
    [[("add", 5, true)], [("add", 0, true)]] 1 (by decide) "add" 0 true
    (by decide) (by intro j hj hlt; simp at hj; omega)

/-- C6: after a (defined) removal, if no remaining live module defines
`m` then resolution falls through to the host process (an exported hit
if the process defines `m`, `none` otherwise); and if some remaining
module defines `m` and no later-registered remaining module does,
resolution returns that module's definition again — removal restores
the previously shadowed definition. -/
theorem C6_removal_restores_shadowed (st : JITState) (h : Nat)
    (st' : JITState) (m : String)
    (hrem : removeModule st h = some st') :
    ((∀ h' ∈ st'.moduleHandles, findSymbolIn st' h' m = none) →
        findMangledSymbol st' m = (st'.process m).map fun a => ⟨a, true⟩) ∧
      (∀ i hndl, st'.moduleHandles.get? i = some hndl →
        (findSymbolIn st' hndl m).isSome = true →
        (∀ j hndl', st'.moduleHandles.get? j = some hndl' → i < j →
          findSymbolIn st' hndl' m = none) →
        findMangledSymbol st' m = findSymbolIn st' hndl m) := by
  constructor
  · intro hall
    unfold findMangledSymbol
    rw [searchHandles_eq_none st' m _
      (fun h' hm => hall h' (List.mem_reverse.mp hm))]
    cases st'.process m <;> simp
  · intro i hndl hget hdef hlater
    unfold findMangledSymbol
    rw [searchHandles_reverse_last_definer st' m _ i hndl hget hdef hlater]
    obtain ⟨s, hs⟩ := Option.isSome_iff_exists.mp hdef
    simp [hs]

/-- The spec's concrete scenario: module A defines `add` (address 5),
module B redefines `add` (address 0). -/
def scenarioState : JITState :=
  (addModule
    (addModule (initialState procSin idMangler) [("add", 5, true)]).2
    [("add", 0, true)]).2

/-- Witness for C6: removing module B's handle (1) from the scenario
state makes `add` resolve to module A's definition (address 5)
again. -/
theorem C6_witness :
    findMangledSymbol ((removeModule scenarioState 1).getD scenarioState)
      "add" = some ⟨5, true⟩ := by
  have h := C6_removal_restores_shadowed scenarioState 1
    ((removeModule scenarioState 1).getD scenarioState) "add" rfl
  have h2 := h.2 0 0 (by decide) (by decide) ?hlater
  case hlater =>
    intro j hndl' hg hlt
    obtain ⟨hj, _⟩ := List.get?_eq_some.mp hg
    have hlen : ((removeModule scenarioState 1).getD
        scenarioState).moduleHandles.length = 1 := by decide
    omega
  exact h2.trans (by decide)

/-! ## The registry well-formedness invariant -/

/-- Every registered handle was issued by the counter and the registry
is duplicate-free. -/
def HandlesWF (st : JITState) : Prop :=
  st.moduleHandles.Nodup ∧ ∀ h ∈ st.moduleHandles, h < st.nextHandle

theorem handlesWF_initial (process : String → Option Nat)
    (mangler : String → String) : HandlesWF (initialState process mangler) := by
  constructor <;> simp [initialState]

theorem handlesWF_addModule (st : JITState) (defs : ModuleDefs)
    (hwf : HandlesWF st) : HandlesWF (addModule st defs).2 := by
  obtain ⟨hnd, hlt⟩ := hwf
  constructor
  · have hnotmem : st.nextHandle ∉ st.moduleHandles := fun hm => by
      have := hlt _ hm
      omega
    simp [addModule, List.nodup_append, hnd, hnotmem]
  · intro h hm
    simp [addModule] at hm ⊢
    cases hm with
    | inl h1 => have := hlt _ h1; omega
    | inr h2 => omega

theorem handlesWF_removeModule (st : JITState) (h : Nat) (st' : JITState)
    (hrem : removeModule st h = some st') (hwf : HandlesWF st) :
    HandlesWF st' := by
  obtain ⟨hnd, hlt⟩ := hwf
  unfold removeModule at hrem
  split at hrem
  · injection hrem with heq
    subst heq
    exact ⟨hnd.erase h, fun h' hm => hlt _ (List.mem_of_mem_erase hm)⟩
  · exact absurd hrem (by simp)

theorem reachable_handlesWF (process : String → Option Nat)
    (mangler : String → String) (st : JITState)
    (h : Reachable process mangler st) : HandlesWF st := by
  induction h with
  | init => exact handlesWF_initial process mangler
  | add st defs _ ih => exact handlesWF_addModule st defs ih
  | remove st hh st' _ hrem ih => exact handlesWF_removeModule st hh st' hrem ih

/-- C7: the handle registry never contains the same handle more than
once, in any state reachable from the empty initial registry by
`addModule`/`removeModule` steps. -/
theorem C7_registry_nodup (process : String → Option Nat)
    (mangler : String → String) (st : JITState)
    (h : Reachable process mangler st) : st.moduleHandles.Nodup :=
  (reachable_handlesWF process mangler st h).1

/-- Witness for C7: the registry of `exampleState`, reached by one
`addModule` from the initial state, is duplicate-free. -/
theorem C7_witness : exampleState.moduleHandles.Nodup :=
  C7_registry_nodup procSin idMangler exampleState
    (Reachable.add (initialState procSin idMangler) [("bar", 7, false)]
      Reachable.init)

end Gaia
